import Mathlib

/-!
# Verification of pyspector against its specification

This file gives a shallow embedding, in Lean 4, of the parts of the
pyspector code base (a PyQt-based Python-module inspector) that the
specification's claims are about, and proves or refutes each claim.

Python strings manipulated by the embedded code are modeled as lists of
characters (`PyStr`); Python `int` is modeled as `Int`; fallible
operations return `Option`.  Qt-level callbacks are modeled as pure state
transformers, and external effects (launching processes, opening browser
tabs) as explicit effect values.
-/

/-- Python strings (as manipulated by the syntax highlighter) are modeled
as lists of characters. -/
abbrev PyStr := List Char

/-- ASCII lowercasing of one character, as performed by Python's
`str.lower` on the prefixes occurring here (which are ASCII letters). -/
def pyLowerChar (c : Char) : Char :=
  if 'A' ≤ c ∧ c ≤ 'Z' then Char.ofNat (c.toNat + 32) else c

/-- Python `str.lower`, restricted to ASCII strings. -/
def pyLower (s : PyStr) : PyStr := s.map pyLowerChar

/-!
## `PythonSyntaxHighlighter._getBlockStateFromStringMatch` and
## `PythonSyntaxHighlighter._getInitialQuoteFromBlockState`

From `src/PythonSyntaxHighlighter.py`, lines 242–268.  The encoder is
given the text matched by the `...Start` group (the quote) and by the
`...OrBytesPrefix` group (the prefix) of an unterminated string match.
The Python code combines the five flags with `|`; the flags occupy
disjoint bits, and we use `Nat.lor` on the disjoint one-bit values just
as the source does.
-/

/-- Embeds `_getBlockStateFromStringMatch`, with the two relevant match groups
passed in directly: the quote (`match.group(role + 'Start')`) and the
prefix (`match.group(role + 'OrBytesPrefix')`). -/
def getBlockStateFromStringMatch (quote pfx : PyStr) : Int :=
  let isDoubleQuote := ['"'].isPrefixOf quote
  let isLongString := quote.length == 3
  let p := pyLower pfx
  let isBytes := p.contains 'b'
  let isFormatted := p.contains 'f'
  let isRaw := p.contains 'r'
  Int.ofNat ((if isDoubleQuote then 1 else 0) ||| (if isLongString then 2 else 0) |||
    (if isBytes then 4 else 0) ||| (if isFormatted then 8 else 0) ||| (if isRaw then 16 else 0))

/-- Embeds `_getInitialQuoteFromBlockState`: decodes a block state back into the
initial quote (prefix letters, quote characters, one space) to prepend to
the next line; negative states decode to the empty string. -/
def getInitialQuoteFromBlockState (state : Int) : PyStr :=
  if state < 0 then []
  else
    let s := state.toNat
    let quote := if s &&& 1 ≠ 0 then ['"'] else ['\'']
    let quote := if s &&& 2 ≠ 0 then quote ++ quote ++ quote else quote
    let quote := (if s &&& 4 ≠ 0 then ['b'] else []) ++ quote
    let quote := (if s &&& 8 ≠ 0 then ['f'] else []) ++ quote
    let quote := (if s &&& 16 ≠ 0 then ['r'] else []) ++ quote
    quote ++ [' ']

/-- Claim-side description of the quote character recorded in a block
state: `"` if flag bit 0 is set, `'` otherwise. -/
def stateQuoteChar (s : Nat) : Char := if s.testBit 0 then '"' else '\''

/-- Claim-side description of the quote recorded in a block state: three
quote characters if flag bit 1 is set, one otherwise. -/
def stateQuote (s : Nat) : PyStr :=
  List.replicate (if s.testBit 1 then 3 else 1) (stateQuoteChar s)

/-- Claim-side description of the prefix recorded in a block state: the
letters `r`, `f`, `b`, each present iff its flag (16, 8, 4) is set. -/
def statePfx (s : Nat) : PyStr :=
  (if s.testBit 4 then ['r'] else []) ++ (if s.testBit 3 then ['f'] else []) ++
    (if s.testBit 2 then ['b'] else [])

/-- C1: the per-line string state round-trips.  Every encoded state lies in
`[0, 31]` and its flag bits record exactly the double-quote (1),
triple-quote (2), `b` (4), `f` (8) and `r` (16) properties of the match;
every state in `[0, 31]` decodes to prefix letters `r`, `f`, `b` (each
present iff its flag is set) followed by the recorded quote characters and
one space, and re-encoding the decoded quote and prefix recovers the
state; every negative state decodes to the empty string. -/
theorem blockState_roundTrip :
    (∀ quote pfx : PyStr,
      0 ≤ getBlockStateFromStringMatch quote pfx ∧
      getBlockStateFromStringMatch quote pfx ≤ 31 ∧
      (getBlockStateFromStringMatch quote pfx).toNat.testBit 0 = ['"'].isPrefixOf quote ∧
      (getBlockStateFromStringMatch quote pfx).toNat.testBit 1 = (quote.length == 3) ∧
      (getBlockStateFromStringMatch quote pfx).toNat.testBit 2 = (pyLower pfx).contains 'b' ∧
      (getBlockStateFromStringMatch quote pfx).toNat.testBit 3 = (pyLower pfx).contains 'f' ∧
      (getBlockStateFromStringMatch quote pfx).toNat.testBit 4 = (pyLower pfx).contains 'r') ∧
    (∀ state : Int, 0 ≤ state → state ≤ 31 →
      getInitialQuoteFromBlockState state =
        statePfx state.toNat ++ stateQuote state.toNat ++ [' '] ∧
      getBlockStateFromStringMatch (stateQuote state.toNat) (statePfx state.toNat) = state) ∧
    (∀ state : Int, state < 0 → getInitialQuoteFromBlockState state = []) := by
  refine ⟨?_, ?_, ?_⟩
  · intro quote pfx
    simp only [getBlockStateFromStringMatch]
    cases h1 : ['"'].isPrefixOf quote <;>
      cases h2 : quote.length == 3 <;>
        cases h3 : (pyLower pfx).contains 'b' <;>
          cases h4 : (pyLower pfx).contains 'f' <;>
            cases h5 : (pyLower pfx).contains 'r' <;> decide
  · intro state h0 h31
    interval_cases state <;> exact ⟨by decide, by decide⟩
  · intro state h
    simp [getInitialQuoteFromBlockState, h]

/-- Witness for C1 at state 19 (double triple quote with a raw prefix). -/
theorem blockState_roundTrip_witness :
    getInitialQuoteFromBlockState 19 =
      statePfx (19 : Int).toNat ++ stateQuote (19 : Int).toNat ++ [' '] ∧
    getBlockStateFromStringMatch (stateQuote (19 : Int).toNat) (statePfx (19 : Int).toNat) = 19 :=
  blockState_roundTrip.2.1 19 (by decide) (by decide)

/-!
## `PythonSyntaxHighlighter.highlightBlock`

From `src/PythonSyntaxHighlighter.py`, lines 197–240.  A regex match of
the combined `code` pattern is modeled abstractly (`ReMatch`) by the spans
and texts of its named groups: `span(name)` is `none` when looking the
group up raises (modeled as re-entering the role loop, like the bare
`except`), and a group that did not participate has no entry in `groups`
(Python's `match.group` returns `None` for it).  `highlightBlock`'s
formatting calls are irrelevant to the block state and are not modeled;
the role loop, its `break`, and the block-state update are.
-/

/-- An abstract regex match: spans and texts of its named groups. -/
structure ReMatch where
  spans : List (String × (Int × Int))
  groups : List (String × PyStr)

/-- Models `match.span(name)`, as consulted by the role loop. -/
def spanOf (m : ReMatch) (name : String) : Option (Int × Int) :=
  m.spans.lookup name

/-- Models `match.group(name)`: `none` models Python's `None` for a group that
did not participate in the match. -/
def groupOf (m : ReMatch) (name : String) : Option PyStr :=
  m.groups.lookup name

/-- The keys of the `STYLES` dictionary, in insertion order — the order in
which `highlightBlock` tries roles for each match. -/
def stylesKeys : List String :=
  ["comment", "todo", "string", "rawString", "escapeSequence", "formattedReplacement",
   "definition", "identifier", "brace", "decorator", "keyword", "operator", "number", "self"]

/-- The inner role loop of `highlightBlock` for one match, returning the
updated current block state.  The first role with a participating,
nonempty span is processed and the loop breaks; a failing group access
(an exception swallowed by the bare `except`) falls through to the next
role.  For an unterminated string or raw string ending exactly at the end
of the line, the state becomes the encoded block state. -/
def processMatchRoles (textLen : Nat) (m : ReMatch) (state : Int) : List String → Int
  | [] => state
  | role :: rest =>
    match spanOf m role with
    | none => processMatchRoles textLen m state rest
    | some (s, e) =>
      if 0 ≤ s ∧ s < e then
        if role = "string" ∨ role = "rawString" then
          match groupOf m (role ++ "OrBytesPrefix") with
          | none => processMatchRoles textLen m state rest
          | some pfx =>
            if e = (textLen : Int) ∧ groupOf m (role ++ "End") ≠ groupOf m (role ++ "Start") then
              match groupOf m (role ++ "Start") with
              | none => processMatchRoles textLen m state rest
              | some quote => getBlockStateFromStringMatch quote pfx
            else state
        else state
      else processMatchRoles textLen m state rest

/-- The block state set by `highlightBlock` for a line of length
`textLen` (after prepending any initial quote) whose matches are `ms`:
`-1` initially, then each match is processed in order. -/
def highlightBlockState (textLen : Nat) (ms : List ReMatch) : Int :=
  ms.foldl (fun state m => processMatchRoles textLen m state stylesKeys) (-1)

/-- Claim-side helper: the role a match plays — the first role in the
given order whose span participates and is nonempty. -/
def matchRole (m : ReMatch) : List String → Option (String × Int × Int)
  | [] => none
  | role :: rest =>
    match spanOf m role with
    | none => matchRole m rest
    | some (s, e) => if 0 ≤ s ∧ s < e then some (role, s, e) else matchRole m rest

/-- Claim-side helper: the match plays role `string` or `rawString`, its
span ends exactly at the end of the line, and its matched end delimiter
differs from its matched start delimiter. -/
def endsUnclosedString (textLen : Nat) (m : ReMatch) (roles : List String) : Bool :=
  match matchRole m roles with
  | some (role, _, e) =>
    decide ((role = "string" ∨ role = "rawString") ∧ e = (textLen : Int) ∧
      groupOf m (role ++ "End") ≠ groupOf m (role ++ "Start"))
  | none => false

/-- Claim-side helper: the block state encoded from the match's start
delimiter and prefix groups. -/
def stateOfMatch (m : ReMatch) (roles : List String) : Int :=
  match matchRole m roles with
  | some (role, _, _) =>
    getBlockStateFromStringMatch ((groupOf m (role ++ "Start")).getD [])
      ((groupOf m (role ++ "OrBytesPrefix")).getD [])
  | none => -1

/-- A match is well formed when a participating nonempty `string` or
`rawString` span comes with its `...OrBytesPrefix` and `...Start` groups —
as is guaranteed by the structure of the combined regex. -/
def wfMatch (m : ReMatch) : Bool :=
  (["string", "rawString"] : List String).all fun role =>
    match spanOf m role with
    | some (s, e) =>
      if 0 ≤ s ∧ s < e then
        (groupOf m (role ++ "OrBytesPrefix")).isSome && (groupOf m (role ++ "Start")).isSome
      else true
    | none => true

/-- The last match of the line that ends an unclosed string (its state
wins, since each qualifying match overwrites the block state). -/
def lastUnclosed (textLen : Nat) : List ReMatch → Option ReMatch
  | [] => none
  | m :: rest =>
    match lastUnclosed textLen rest with
    | some m' => some m'
    | none => if endsUnclosedString textLen m stylesKeys = true then some m else none

theorem processMatchRoles_eq (textLen : Nat) (m : ReMatch) (st : Int)
    (wf : wfMatch m = true) (roles : List String) :
    processMatchRoles textLen m st roles =
      if endsUnclosedString textLen m roles = true then stateOfMatch m roles else st := by
  induction roles with
  | nil => simp [processMatchRoles, endsUnclosedString, matchRole]
  | cons role rest ih =>
    cases hspan : spanOf m role with
    | none =>
      simp only [processMatchRoles, endsUnclosedString, stateOfMatch, matchRole, hspan]
      exact ih
    | some se =>
      obtain ⟨s, e⟩ := se
      by_cases hv : 0 ≤ s ∧ s < e
      · by_cases hrole : role = "string" ∨ role = "rawString"
        · have hwf : (groupOf m (role ++ "OrBytesPrefix")).isSome = true ∧
              (groupOf m (role ++ "Start")).isSome = true := by
            simp only [wfMatch, List.all_cons, List.all_nil, Bool.and_true,
              Bool.and_eq_true] at wf
            rcases hrole with h | h <;> subst h
            · have h1 := wf.1
              rw [hspan] at h1
              simpa [hv] using h1
            · have h1 := wf.2
              rw [hspan] at h1
              simpa [hv] using h1
          obtain ⟨p, hp⟩ := Option.isSome_iff_exists.mp hwf.1
          obtain ⟨q, hq⟩ := Option.isSome_iff_exists.mp hwf.2
          by_cases hcond : e = (textLen : Int) ∧
              groupOf m (role ++ "End") ≠ groupOf m (role ++ "Start")
          · obtain ⟨he, hne⟩ := hcond
            subst he
            simp [processMatchRoles, endsUnclosedString, stateOfMatch, matchRole,
              hspan, hv, hrole, hne, hp, hq]
          · simp [processMatchRoles, endsUnclosedString, stateOfMatch, matchRole,
              hspan, hv, hrole, hcond, hp]
        · simp [processMatchRoles, endsUnclosedString, stateOfMatch, matchRole,
            hspan, hv, hrole]
      · simp only [processMatchRoles, endsUnclosedString, stateOfMatch, matchRole,
          hspan, if_neg hv]
        exact ih

theorem highlightBlockState_foldl (textLen : Nat) :
    ∀ ms : List ReMatch, (∀ m ∈ ms, wfMatch m = true) → ∀ st : Int,
      ms.foldl (fun state m => processMatchRoles textLen m state stylesKeys) st =
        match lastUnclosed textLen ms with
        | some m' => stateOfMatch m' stylesKeys
        | none => st := by
  intro ms
  induction ms with
  | nil => intro _ st; rfl
  | cons m rest ih =>
    intro wf st
    have hm : wfMatch m = true := wf m (by simp)
    have wfr : ∀ m' ∈ rest, wfMatch m' = true := fun m' h => wf m' (by simp [h])
    rw [List.foldl_cons, processMatchRoles_eq textLen m st hm stylesKeys, ih wfr]
    cases hl : lastUnclosed textLen rest with
    | some m' => simp [lastUnclosed, hl]
    | none =>
      by_cases he : endsUnclosedString textLen m stylesKeys = true <;>
        simp [lastUnclosed, hl, he]

theorem lastUnclosed_none_iff (textLen : Nat) :
    ∀ ms : List ReMatch, lastUnclosed textLen ms = none ↔
      ∀ m ∈ ms, endsUnclosedString textLen m stylesKeys = false := by
  intro ms
  induction ms with
  | nil => simp [lastUnclosed]
  | cons m rest ih =>
    cases hl : lastUnclosed textLen rest with
    | some m' =>
      simp only [lastUnclosed, hl]
      constructor
      · intro h; exact absurd h (by simp)
      · intro h
        exact absurd (ih.mpr fun x hx => h x (by simp [hx])) (by simp [hl])
    | none =>
      by_cases he : endsUnclosedString textLen m stylesKeys = true
      · simp only [lastUnclosed, hl, if_pos he]
        constructor
        · intro h; cases h
        · intro h
          exact absurd (h m (by simp)) (by simp [he])
      · simp only [lastUnclosed, hl, if_neg he]
        simp only [Bool.not_eq_true] at he
        constructor
        · intro _ x hx
          rcases List.mem_cons.mp hx with h | h
          · subst h; exact he
          · exact ih.mp hl x h
        · intro _; trivial

theorem lastUnclosed_some_mem (textLen : Nat) :
    ∀ ms : List ReMatch, ∀ m' : ReMatch, lastUnclosed textLen ms = some m' →
      m' ∈ ms ∧ endsUnclosedString textLen m' stylesKeys = true := by
  intro ms
  induction ms with
  | nil => intro m' h; simp [lastUnclosed] at h
  | cons m rest ih =>
    intro m' h
    simp only [lastUnclosed] at h
    cases hl : lastUnclosed textLen rest with
    | some x =>
      rw [hl] at h
      obtain ⟨hmem, hends⟩ := ih x hl
      cases h
      exact ⟨by simp [hmem], hends⟩
    | none =>
      rw [hl] at h
      by_cases he : endsUnclosedString textLen m stylesKeys = true
      · rw [if_pos he] at h
        cases h
        exact ⟨by simp, he⟩
      · rw [if_neg he] at h
        cases h

theorem getBlockStateFromStringMatch_nonneg (quote pfx : PyStr) :
    0 ≤ getBlockStateFromStringMatch quote pfx := by
  simp [getBlockStateFromStringMatch]

/-- C2: for every processed line, the current block state is nonnegative
iff some match plays role `string` or `rawString`, ends exactly at the end
of the line, and its matched end delimiter differs from its matched start
delimiter; in every other case it is `-1`; and a nonnegative state is the
encoding of the last such unterminated string match. -/
theorem highlightBlock_blockState (textLen : Nat) (ms : List ReMatch)
    (wf : ∀ m ∈ ms, wfMatch m = true) :
    (0 ≤ highlightBlockState textLen ms ↔
      ∃ m ∈ ms, endsUnclosedString textLen m stylesKeys = true) ∧
    (highlightBlockState textLen ms = -1 ↔
      ¬ ∃ m ∈ ms, endsUnclosedString textLen m stylesKeys = true) ∧
    (∀ m', lastUnclosed textLen ms = some m' →
      highlightBlockState textLen ms = stateOfMatch m' stylesKeys) := by
  have hfold := highlightBlockState_foldl textLen ms wf (-1)
  cases hl : lastUnclosed textLen ms with
  | some m' =>
    obtain ⟨hmem, hends⟩ := lastUnclosed_some_mem textLen ms m' hl
    have hstate : highlightBlockState textLen ms = stateOfMatch m' stylesKeys := by
      rw [highlightBlockState, hfold, hl]
    have hnn : 0 ≤ stateOfMatch m' stylesKeys := by
      rw [stateOfMatch]
      rw [endsUnclosedString] at hends
      cases hmr : matchRole m' stylesKeys with
      | some rse =>
        obtain ⟨role, s, e⟩ := rse
        exact getBlockStateFromStringMatch_nonneg _ _
      | none => simp [hmr] at hends
    refine ⟨⟨fun _ => ⟨m', hmem, hends⟩, fun _ => by rw [hstate]; exact hnn⟩, ?_, ?_⟩
    · constructor
      · intro h
        rw [hstate] at h
        omega
      · intro h
        exact absurd ⟨m', hmem, hends⟩ h
    · intro x hx
      cases hx
      exact hstate
  | none =>
    have hstate : highlightBlockState textLen ms = -1 := by
      rw [highlightBlockState, hfold, hl]
    have hnone := (lastUnclosed_none_iff textLen ms).mp hl
    refine ⟨?_, ?_, ?_⟩
    · constructor
      · intro h; rw [hstate] at h; omega
      · rintro ⟨m, hm, hends⟩
        rw [hnone m hm] at hends
        exact absurd hends (by simp)
    · constructor
      · rintro _ ⟨m, hm, hends⟩
        rw [hnone m hm] at hends
        exact absurd hends (by simp)
      · intro _; exact hstate
    · intro x hx
      cases hx

/-- Witness for C2: a line `x = '''` of length 7 whose last match is an
unterminated triple-quoted string reaching the end of the line. -/
theorem highlightBlock_blockState_witness :
    (0 ≤ highlightBlockState 7
        [{ spans := [("string", (4, 7))],
           groups := [("stringOrBytesPrefix", []), ("stringStart", ['\'', '\'', '\'']),
                      ("stringEnd", [])] }] ↔
      ∃ m ∈ [({ spans := [("string", (4, 7))],
                groups := [("stringOrBytesPrefix", []), ("stringStart", ['\'', '\'', '\'']),
                           ("stringEnd", [])] } : ReMatch)],
        endsUnclosedString 7 m stylesKeys = true) := by
  have h := highlightBlock_blockState 7
    [{ spans := [("string", (4, 7))],
       groups := [("stringOrBytesPrefix", []), ("stringStart", ['\'', '\'', '\'']),
                  ("stringEnd", [])] }]
    (by intro m hm; simp only [List.mem_singleton] at hm; subst hm; decide)
  exact h.1

/-!
## `SearchEdit` and its debounce timer

From `src/SearchEdit.py`, lines 9–34.  The widget owns a 500 ms
single-shot `QTimer`; every `textChanged` signal runs `_restartTimer`
(stop, then start), and `delayedTextChanged` is the timer's `timeout`
signal.  Time is modeled discretely in milliseconds: the timer state is
the pending deadline (if any), and a pending deadline that is reached at
or before the next text change fires then.
-/

/-- The debounce interval configured by `self._timer.setInterval(500)`. -/
def debounceIntervalMs : Nat := 500

/-- Embeds `_restartTimer`: `stop()` discards any pending deadline and `start()`
schedules a new single-shot timeout one interval from now. -/
def restartTimer (now : Nat) : Option Nat := some (now + debounceIntervalMs)

/-- Runs the single-shot timer against a timeline of text-change
timestamps, collecting the times at which `timeout` fires: a pending
deadline fires if it is reached before the next change; at the end of the
timeline a pending deadline fires unconditionally. -/
def runDebounce (pending : Option Nat) : List Nat → List Nat
  | [] =>
    match pending with
    | some d => [d]
    | none => []
  | t :: rest =>
    match pending with
    | some d =>
      if d ≤ t then d :: runDebounce (restartTimer t) rest
      else runDebounce (restartTimer t) rest
    | none => runDebounce (restartTimer t) rest

/-- The times at which `delayedTextChanged` fires, for a given strictly
increasing timeline of `textChanged` timestamps. -/
def delayedTextChangedTimes (changes : List Nat) : List Nat :=
  runDebounce none changes

/-- Claim-side: `t` ends a burst — no other change falls strictly inside
the window `(t, t + 500)`. -/
def noChangeSoon (changes : List Nat) (t : Nat) : Bool :=
  changes.all fun u => !(decide (t < u) && decide (u < t + debounceIntervalMs))

/-- Claim-side: one firing per burst, 500 ms after the burst's last
change. -/
def burstFireTimes (changes : List Nat) : List Nat :=
  (changes.filter (noChangeSoon changes)).map (· + debounceIntervalMs)

/-- C3: the search box debounces its input.  For any strictly increasing
timeline of text changes, `delayedTextChanged` fires exactly at the times
`t + 500` for the changes `t` that are not followed by another change
less than 500 ms later: never inside a burst, and exactly once 500 ms
after the last change of each burst. -/
theorem searchEdit_debounce (changes : List Nat) (h : List.Chain' (· < ·) changes) :
    delayedTextChangedTimes changes = burstFireTimes changes := by
  induction changes with
  | nil => rfl
  | cons t rest ih =>
    cases rest with
    | nil =>
      simp [delayedTextChangedTimes, runDebounce, restartTimer, burstFireTimes, noChangeSoon]
    | cons u rest' =>
      rw [List.chain'_cons] at h
      obtain ⟨htu, hchain⟩ := h
      have hpair : ∀ w ∈ rest', u < w := by
        have hp := List.chain'_iff_pairwise.mp hchain
        intro w hw
        exact (List.pairwise_cons.mp hp).1 w hw
      have htall : ∀ x ∈ u :: rest', t < x := by
        intro x hx
        rcases List.mem_cons.mp hx with rfl | hx
        · exact htu
        · exact htu.trans (hpair x hx)
      have hL : delayedTextChangedTimes (t :: u :: rest') =
          if t + debounceIntervalMs ≤ u then
            (t + debounceIntervalMs) :: delayedTextChangedTimes (u :: rest')
          else delayedTextChangedTimes (u :: rest') := by
        by_cases hd : t + debounceIntervalMs ≤ u <;>
          simp [delayedTextChangedTimes, runDebounce, restartTimer, hd]
      have hfilter : (u :: rest').filter (noChangeSoon (t :: u :: rest')) =
          (u :: rest').filter (noChangeSoon (u :: rest')) := by
        apply List.filter_congr
        intro x hx
        have hxt : ¬ x < t := Nat.not_lt.mpr (Nat.le_of_lt (htall x hx))
        simp [noChangeSoon, List.all_cons, hxt]
      have hhead : noChangeSoon (t :: u :: rest') t = decide (t + debounceIntervalMs ≤ u) := by
        simp only [noChangeSoon, List.all_cons]
        by_cases hd : t + debounceIntervalMs ≤ u
        · have h1 : ¬ u < t + debounceIntervalMs := by omega
          have h2 : ∀ w ∈ rest', (!(decide (t < w) && decide (w < t + debounceIntervalMs))) =
              true := by
            intro w hw
            have := hpair w hw
            have : ¬ w < t + debounceIntervalMs := by omega
            simp [this]
          simp [hd, h1, List.all_eq_true.mpr h2]
          intro x hx
          have := hpair x hx
          right
          omega
        · have h1 : u < t + debounceIntervalMs := by omega
          simp [hd, htu, h1]
      rw [hL, ih hchain]
      by_cases hd : t + debounceIntervalMs ≤ u <;>
        simp [burstFireTimes, List.filter_cons, hhead, hfilter, hd]

/-- Witness for C3: changes at 0 ms and 100 ms form one burst, a change
at 700 ms a second one; the signal fires at 600 ms and 1200 ms. -/
theorem searchEdit_debounce_witness :
    delayedTextChangedTimes [0, 100, 700] = burstFireTimes [0, 100, 700] :=
  searchEdit_debounce [0, 100, 700] (by norm_num [List.chain'_cons])

/-!
## `utilities.getItemFromIndex` and the proxy-model chain

From `src/utilities.py`, lines 18–23, and `src/MainModel.py`, lines
44–62.  A model is either a concrete `QStandardItemModel` (with its
`itemFromIndex` lookup) or a proxy wrapping a source model with a
`mapToSource` function on indices; `getItemFromIndex` repeatedly maps the
index to the source until the model is no longer a proxy.
-/

/-- A (possibly multiply nested) Qt item model: a `QStandardItemModel`
with its `itemFromIndex` lookup, or a `QAbstractProxyModel` with its
`mapToSource` and its source model. -/
inductive QtModel (Idx Item : Type) where
  | standard (itemFromIndex : Idx → Option Item)
  | proxy (mapToSource : Idx → Idx) (source : QtModel Idx Item)

/-- Embeds `utilities.getItemFromIndex`: while the model is a proxy, replace the
index by `mapToSource(index)` and the model by its source; then look the
item up in the concrete model. -/
def getItemFromIndex {Idx Item : Type} : QtModel Idx Item → Idx → Option Item
  | .standard itemFromIndex, index => itemFromIndex index
  | .proxy mapToSource source, index => getItemFromIndex source (mapToSource index)

/-- Claim-side: the underlying concrete model at the bottom of a proxy
chain. -/
def baseItemFromIndex {Idx Item : Type} : QtModel Idx Item → Idx → Option Item
  | .standard itemFromIndex => itemFromIndex
  | .proxy _ source => baseItemFromIndex source

/-- Claim-side: the composition of the `mapToSource` maps down a proxy
chain. -/
def mapToBase {Idx Item : Type} : QtModel Idx Item → Idx → Idx
  | .standard _ => fun index => index
  | .proxy mapToSource source => fun index => mapToBase source (mapToSource index)

/-- The three-stage filtered tree model built in `MainModel.__init__`:
the search filter wraps the inherited-members filter, which wraps the
private-members filter, which wraps the unfiltered
`QStandardItemModel`. -/
def mainModelChain {Idx Item : Type} (treeModel : Idx → Option Item)
    (intermediateMap secondIntermediateMap filteredMap : Idx → Idx) : QtModel Idx Item :=
  .proxy filteredMap (.proxy secondIntermediateMap (.proxy intermediateMap
    (.standard treeModel)))

/-- C4: `getItemFromIndex` presents items of the underlying model without
copying: on any proxy chain it returns exactly the underlying concrete
model's item at the fully mapped-to-source index, and in particular every
item obtained through the three-stage filtered tree model is an item of
the single unfiltered `QStandardItemModel`. -/
theorem getItemFromIndex_unwraps {Idx Item : Type} :
    (∀ (model : QtModel Idx Item) (index : Idx),
      getItemFromIndex model index = baseItemFromIndex model (mapToBase model index)) ∧
    (∀ (treeModel : Idx → Option Item) (intermediateMap secondIntermediateMap filteredMap :
        Idx → Idx) (index : Idx),
      getItemFromIndex
          (mainModelChain treeModel intermediateMap secondIntermediateMap filteredMap) index =
        treeModel (intermediateMap (secondIntermediateMap (filteredMap index)))) := by
  constructor
  · intro model
    induction model with
    | standard itemFromIndex => intro index; rfl
    | proxy mapToSource source ih =>
      intro index
      simp [getItemFromIndex, baseItemFromIndex, mapToBase, ih]
  · intro treeModel intermediateMap secondIntermediateMap filteredMap index
    rfl

/-!
## `MainWindow._displayInfo` — class hierarchy section

From `src/MainWindow.py`, lines 278–299.  The HTML fragments appended for
the inheritance hierarchy are modeled as a list of parts: a section
header, followed by one link entry per listed class.  `inspect.getmro`
and `__subclasses__()` results are passed in as lists of class
references.
-/

/-- A class reference as displayed: its defining module and qualified
name. -/
structure ClassRef where
  moduleName : String
  qualname : String
deriving DecidableEq

/-- One HTML fragment of the class-hierarchy section. -/
inductive HtmlPart where
  | header (title : String)
  | classLink (ref : ClassRef)
deriving DecidableEq

/-- The base-classes list: shown only when the MRO has more than one
entry; the first entry (the class itself) is omitted and the rest are
emitted in reversed order (`for baseClass in reversed(baseClasses)`). -/
def baseClassEntries (mro : List ClassRef) : List HtmlPart :=
  if 1 < mro.length then
    HtmlPart.header "Base classes:" :: (mro.drop 1).reverse.map HtmlPart.classLink
  else []

/-- The derived-classes list: shown only when `__subclasses__()` is
nonempty, one entry per subclass in order. -/
def derivedClassEntries (subclasses : List ClassRef) : List HtmlPart :=
  if 0 < subclasses.length then
    HtmlPart.header "Derived classes:" :: subclasses.map HtmlPart.classLink
  else []

/-- The class-hierarchy section of `_displayInfo`, guarded by
`'class' in memberType`. -/
def displayClassHierarchy (memberType : String) (mro subclasses : List ClassRef) :
    List HtmlPart :=
  if "class".toList <:+: memberType.toList then
    baseClassEntries mro ++ derivedClassEntries subclasses
  else []

/-- C5: for a selected class, the detail pane lists as base classes
exactly the MRO entries with the first entry (the class itself) omitted,
in reverse MRO order — the i-th listed base class is MRO entry
`length - 1 - i` — and lists as derived classes exactly the
runtime-detected subclasses; for an MRO of length one, no base-class list
is shown. -/
theorem displayInfo_classHierarchy (memberType : String) (mro subclasses : List ClassRef)
    (hclass : "class".toList <:+: memberType.toList) :
    (1 < mro.length →
      displayClassHierarchy memberType mro subclasses =
        HtmlPart.header "Base classes:" ::
          ((mro.drop 1).reverse.map HtmlPart.classLink ++ derivedClassEntries subclasses) ∧
      ((mro.drop 1).reverse.map HtmlPart.classLink).length = mro.length - 1 ∧
      (∀ i, i < mro.length - 1 →
        ((mro.drop 1).reverse.map HtmlPart.classLink)[i]? =
          (mro[mro.length - 1 - i]?).map HtmlPart.classLink) ∧
      (mro.drop 1).reverse.Perm (mro.drop 1)) ∧
    (mro.length = 1 →
      displayClassHierarchy memberType mro subclasses = derivedClassEntries subclasses) ∧
    (0 < subclasses.length →
      derivedClassEntries subclasses =
        HtmlPart.header "Derived classes:" :: subclasses.map HtmlPart.classLink) ∧
    (subclasses.length = 0 → derivedClassEntries subclasses = []) := by
  have hd : displayClassHierarchy memberType mro subclasses =
      baseClassEntries mro ++ derivedClassEntries subclasses := by
    rw [displayClassHierarchy, if_pos hclass]
  refine ⟨?_, ?_, ?_, ?_⟩
  · intro h1
    refine ⟨?_, ?_, ?_, List.reverse_perm _⟩
    · rw [hd]
      simp [baseClassEntries, h1]
    · simp
    · intro i hi
      have hlen : (mro.drop 1).length = mro.length - 1 := by simp
      have hi' : i < (mro.drop 1).length := by rw [hlen]; exact hi
      rw [List.getElem?_map, List.getElem?_reverse hi', List.getElem?_drop]
      have harith : 1 + ((mro.drop 1).length - 1 - i) = mro.length - 1 - i := by
        rw [hlen]
        omega
      rw [harith]
  · intro h1
    rw [hd]
    simp [baseClassEntries, h1]
  · intro h
    simp [derivedClassEntries, h]
  · intro h
    simp [derivedClassEntries, h]

/-- Witness for C5: a class with MRO `[A, B]` and no subclasses lists
exactly `B` as its one base class. -/
theorem displayInfo_classHierarchy_witness :
    displayClassHierarchy "class" [⟨"m", "A"⟩, ⟨"m", "B"⟩] [] =
      HtmlPart.header "Base classes:" ::
        ((([⟨"m", "A"⟩, ⟨"m", "B"⟩] : List ClassRef).drop 1).reverse.map HtmlPart.classLink ++
          derivedClassEntries []) :=
  ((displayInfo_classHierarchy "class" [⟨"m", "A"⟩, ⟨"m", "B"⟩] []
    (List.infix_refl _)).1 (by norm_num)).1

/-!
## `Config` and the filter checkboxes

From `src/Config.py` and `src/MainWindow.py`, lines 147–172, and the
filter-state setters of `src/MainModel.py`.  The result of reading the
settings file is modeled as `none` when `open`/`json.load` raises, and
otherwise as the parsed top-level JSON value — a JSON object with the
five keys optional, or any other JSON value (list, string, number,
boolean, null).  The `try` in `Config.__init__` covers only
`open`/`json.load`; the `settings.get(...)` calls run outside it, so a
parsed non-object value raises `AttributeError` out of the constructor.
`Config._save` silently ignores failures, so a save attempt is modeled
by its optional written payload.
-/

/-- The in-memory state of a `Config` instance: its five settings. -/
structure ConfigState where
  matchCase : Bool
  includePrivateMembers : Bool
  includeInheritedMembers : Bool
  sortByType : Bool
  moduleNames : List String
deriving DecidableEq

/-- A parsed settings dictionary: each key may be absent. -/
structure JsonSettings where
  matchCase : Option Bool
  includePrivateMembers : Option Bool
  includeInheritedMembers : Option Bool
  sortByType : Option Bool
  moduleNames : Option (List String)

/-- The empty settings dictionary used when loading fails. -/
def emptySettings : JsonSettings := ⟨none, none, none, none, none⟩

/-- A successfully parsed top-level JSON value: an object (a dict on
which `settings.get` works), or any other JSON value — list, string,
number, boolean or null — on which `settings.get` raises
`AttributeError`. -/
inductive JsonValue where
  | obj (settings : JsonSettings)
  | nonObject

/-- The `settings.get(...)` chain of `Config.__init__`, which requires a
dict. -/
def configFromSettings (settings : JsonSettings) : ConfigState :=
  { matchCase := settings.matchCase.getD false
    includePrivateMembers := settings.includePrivateMembers.getD false
    includeInheritedMembers := settings.includeInheritedMembers.getD false
    sortByType := settings.sortByType.getD true
    moduleNames := settings.moduleNames.getD ["builtins"] }

/-- Embeds `Config.__init__`: `loaded` is `none` when `open` or
`json.load` raises (the bare `except` turns that into `settings = {}`),
and otherwise the parsed top-level JSON value.  The `settings.get(...)`
calls run after the `try`, so a parsed non-object value makes the
constructor raise `AttributeError` (an `Except.error`). -/
def configInit (loaded : Option JsonValue) : Except String ConfigState :=
  match loaded with
  | none => Except.ok (configFromSettings emptySettings)
  | some (JsonValue.obj settings) => Except.ok (configFromSettings settings)
  | some JsonValue.nonObject => Except.error "AttributeError"

/-- Embeds `Config._save`: attempts to write the five current settings;
`saveOk` models whether `open(..., 'w')`/`json.dump` succeeds, and a
failure is silently ignored (nothing is written, no exception
propagates). -/
def configSaveResult (c : ConfigState) (saveOk : Bool) : Option ConfigState :=
  if saveOk then some c else none

/-- The `matchCase` property setter: update the in-memory value, then
try to save. -/
def configSetMatchCase (c : ConfigState) (v : Bool) (saveOk : Bool) :
    ConfigState × Option ConfigState :=
  let c1 := { c with matchCase := v }
  (c1, configSaveResult c1 saveOk)

/-- The `includePrivateMembers` property setter. -/
def configSetIncludePrivateMembers (c : ConfigState) (v : Bool) (saveOk : Bool) :
    ConfigState × Option ConfigState :=
  let c1 := { c with includePrivateMembers := v }
  (c1, configSaveResult c1 saveOk)

/-- The `includeInheritedMembers` property setter. -/
def configSetIncludeInheritedMembers (c : ConfigState) (v : Bool) (saveOk : Bool) :
    ConfigState × Option ConfigState :=
  let c1 := { c with includeInheritedMembers := v }
  (c1, configSaveResult c1 saveOk)

/-- The `sortByType` property setter. -/
def configSetSortByType (c : ConfigState) (v : Bool) (saveOk : Bool) :
    ConfigState × Option ConfigState :=
  let c1 := { c with sortByType := v }
  (c1, configSaveResult c1 saveOk)

/-- The `moduleNames` property setter. -/
def configSetModuleNames (c : ConfigState) (v : List String) (saveOk : Bool) :
    ConfigState × Option ConfigState :=
  let c1 := { c with moduleNames := v }
  (c1, configSaveResult c1 saveOk)

/-- Counterexample to C8 as stated: for a file holding valid JSON whose
top-level value is not an object, `json.load` succeeds inside the `try`
and the first `settings.get` then raises `AttributeError` outside it —
`Config` construction fails. -/
theorem configInit_nonObject_raises :
    configInit (some JsonValue.nonObject) = Except.error "AttributeError" :=
  rfl

/-- C8 (amended): `Config` construction fails only when the settings
file parses as valid JSON whose top-level value is not an object; a file
that cannot be opened or parsed yields exactly the five defaults; and
every property setter updates the in-memory value and then attempts to
save all five settings, with a save failure changing nothing observable:
the in-memory state is the same whether the save succeeds or fails, and
a successful save writes exactly the five current settings. -/
theorem config_defaults_and_silent_saves :
    configInit none = Except.ok { matchCase := false
                                  includePrivateMembers := false
                                  includeInheritedMembers := false
                                  sortByType := true
                                  moduleNames := ["builtins"] } ∧
    (∀ loaded : Option JsonValue,
      (configInit loaded).isOk = false ↔ loaded = some JsonValue.nonObject) ∧
    (∀ (c : ConfigState) (v : Bool) (saveOk : Bool),
      (configSetMatchCase c v saveOk).1 = { c with matchCase := v } ∧
      (configSetMatchCase c v saveOk).2 =
        if saveOk then some { c with matchCase := v } else none) ∧
    (∀ (c : ConfigState) (v : Bool) (saveOk : Bool),
      (configSetIncludePrivateMembers c v saveOk).1 = { c with includePrivateMembers := v } ∧
      (configSetIncludePrivateMembers c v saveOk).2 =
        if saveOk then some { c with includePrivateMembers := v } else none) ∧
    (∀ (c : ConfigState) (v : Bool) (saveOk : Bool),
      (configSetIncludeInheritedMembers c v saveOk).1 =
        { c with includeInheritedMembers := v } ∧
      (configSetIncludeInheritedMembers c v saveOk).2 =
        if saveOk then some { c with includeInheritedMembers := v } else none) ∧
    (∀ (c : ConfigState) (v : Bool) (saveOk : Bool),
      (configSetSortByType c v saveOk).1 = { c with sortByType := v } ∧
      (configSetSortByType c v saveOk).2 =
        if saveOk then some { c with sortByType := v } else none) ∧
    (∀ (c : ConfigState) (v : List String) (saveOk : Bool),
      (configSetModuleNames c v saveOk).1 = { c with moduleNames := v } ∧
      (configSetModuleNames c v saveOk).2 =
        if saveOk then some { c with moduleNames := v } else none) := by
  refine ⟨rfl, ?_, fun _ _ _ => ⟨rfl, rfl⟩, fun _ _ _ => ⟨rfl, rfl⟩, fun _ _ _ => ⟨rfl, rfl⟩,
    fun _ _ _ => ⟨rfl, rfl⟩, fun _ _ _ => ⟨rfl, rfl⟩⟩
  intro loaded
  match loaded with
  | none => exact ⟨fun h => Bool.noConfusion h, fun h => Option.noConfusion h⟩
  | some (JsonValue.obj settings) =>
    exact ⟨fun h => Bool.noConfusion h, fun h => JsonValue.noConfusion (Option.some.inj h)⟩
  | some JsonValue.nonObject => exact ⟨fun _ => rfl, fun _ => rfl⟩

/-- The filter-related state of a `MainModel` (the proxy models' filter
settings; the tree contents are modeled separately). -/
structure FilterModelState where
  searchText : String
  matchCase : Bool
  includePrivateMembers : Bool
  includeInheritedMembers : Bool
  sortByType : Bool
  filterCaseSensitivity : Nat
  privateFilterRegEx : String
  inheritedFilterRegEx : String
deriving DecidableEq

/-- Regular expression excluding private members (`'^[^_]|^__'`). -/
def excludePrivateRegEx : String := "^[^_]|^__"

/-- Regular expression including private members (`''`). -/
def includePrivateRegEx : String := ""

/-- Regular expression excluding inherited members (`'^$'`). -/
def excludeInheritedRegEx : String := "^$"

/-- Regular expression including inherited members (`''`). -/
def includeInheritedRegEx : String := ""

/-- Embeds `MainModel.matchCase` setter: stores the flag and updates the search
filter's case sensitivity (`1 if value else 0`). -/
def modelSetMatchCase (m : FilterModelState) (v : Bool) : FilterModelState :=
  { m with matchCase := v
           filterCaseSensitivity := (if v then 1 else 0) }

/-- Embeds `MainModel.includePrivateMembers` setter: stores the flag and swaps
the private-members filter regex. -/
def modelSetIncludePrivateMembers (m : FilterModelState) (v : Bool) : FilterModelState :=
  { m with includePrivateMembers := v
           privateFilterRegEx := (if v then includePrivateRegEx else excludePrivateRegEx) }

/-- Embeds `MainModel.includeInheritedMembers` setter: stores the flag and swaps
the inherited-members filter regex. -/
def modelSetIncludeInheritedMembers (m : FilterModelState) (v : Bool) : FilterModelState :=
  { m with includeInheritedMembers := v
           inheritedFilterRegEx := (if v then includeInheritedRegEx else excludeInheritedRegEx) }

/-- Embeds `MainModel.sortByType` setter: stores the flag (and re-sorts the
tree, which carries no filter state). -/
def modelSetSortByType (m : FilterModelState) (v : Bool) : FilterModelState :=
  { m with sortByType := v }

/-- Models `Qt.Checked` (the `stateChanged` payload for a checked box). -/
def qtCheckedValue : Nat := 2

/-- A filter checkbox `stateChanged` event with its Qt state payload. -/
inductive CheckBoxEvent where
  | matchCaseChanged (state : Nat)
  | includePrivateChanged (state : Nat)
  | includeInheritedChanged (state : Nat)
  | sortByTypeChanged (state : Nat)

/-- The config-plus-model state acted on by the checkbox handlers. -/
structure MainWindowFilterState where
  config : ConfigState
  model : FilterModelState
deriving DecidableEq

/-- The four checkbox handlers of `MainWindow` (lines 147–172): each
computes `isChecked = state == Qt.Checked` and assigns it to the matching
`Config` property (whose save attempt leaves the in-memory value) and to
the matching `MainModel` property. -/
def checkBoxStateChanged (w : MainWindowFilterState) : CheckBoxEvent → MainWindowFilterState
  | .matchCaseChanged state =>
    let isChecked := state == qtCheckedValue
    { config := { w.config with matchCase := isChecked },
      model := modelSetMatchCase w.model isChecked }
  | .includePrivateChanged state =>
    let isChecked := state == qtCheckedValue
    { config := { w.config with includePrivateMembers := isChecked },
      model := modelSetIncludePrivateMembers w.model isChecked }
  | .includeInheritedChanged state =>
    let isChecked := state == qtCheckedValue
    { config := { w.config with includeInheritedMembers := isChecked },
      model := modelSetIncludeInheritedMembers w.model isChecked }
  | .sortByTypeChanged state =>
    let isChecked := state == qtCheckedValue
    { config := { w.config with sortByType := isChecked },
      model := modelSetSortByType w.model isChecked }

/-- The persisted configuration and the live filter state agree on the
four checkbox-controlled settings. -/
def filterStatesAgree (w : MainWindowFilterState) : Prop :=
  w.config.matchCase = w.model.matchCase ∧
  w.config.includePrivateMembers = w.model.includePrivateMembers ∧
  w.config.includeInheritedMembers = w.model.includeInheritedMembers ∧
  w.config.sortByType = w.model.sortByType

/-- C6: after any checkbox handler runs with checked state `b`, the
corresponding `Config` property and `MainModel` property both equal `b`;
consequently, starting from agreeing states, the persisted configuration
and the live filter state agree after every sequence of toggles. -/
theorem checkBox_toggles_consistent :
    (∀ (w : MainWindowFilterState) (state : Nat),
      (checkBoxStateChanged w (.matchCaseChanged state)).config.matchCase =
          (state == qtCheckedValue) ∧
      (checkBoxStateChanged w (.matchCaseChanged state)).model.matchCase =
          (state == qtCheckedValue)) ∧
    (∀ (w : MainWindowFilterState) (state : Nat),
      (checkBoxStateChanged w (.includePrivateChanged state)).config.includePrivateMembers =
          (state == qtCheckedValue) ∧
      (checkBoxStateChanged w (.includePrivateChanged state)).model.includePrivateMembers =
          (state == qtCheckedValue)) ∧
    (∀ (w : MainWindowFilterState) (state : Nat),
      (checkBoxStateChanged w (.includeInheritedChanged state)).config.includeInheritedMembers =
          (state == qtCheckedValue) ∧
      (checkBoxStateChanged w (.includeInheritedChanged state)).model.includeInheritedMembers =
          (state == qtCheckedValue)) ∧
    (∀ (w : MainWindowFilterState) (state : Nat),
      (checkBoxStateChanged w (.sortByTypeChanged state)).config.sortByType =
          (state == qtCheckedValue) ∧
      (checkBoxStateChanged w (.sortByTypeChanged state)).model.sortByType =
          (state == qtCheckedValue)) ∧
    (∀ (w : MainWindowFilterState) (events : List CheckBoxEvent),
      filterStatesAgree w → filterStatesAgree (events.foldl checkBoxStateChanged w)) := by
  refine ⟨fun _ _ => ⟨rfl, rfl⟩, fun _ _ => ⟨rfl, rfl⟩, fun _ _ => ⟨rfl, rfl⟩,
    fun _ _ => ⟨rfl, rfl⟩, ?_⟩
  intro w events
  induction events generalizing w with
  | nil => exact fun h => h
  | cons e rest ih =>
    intro h
    rw [List.foldl_cons]
    apply ih
    cases e with
    | matchCaseChanged state => exact ⟨rfl, h.2.1, h.2.2.1, h.2.2.2⟩
    | includePrivateChanged state => exact ⟨h.1, rfl, h.2.2.1, h.2.2.2⟩
    | includeInheritedChanged state => exact ⟨h.1, h.2.1, rfl, h.2.2.2⟩
    | sortByTypeChanged state => exact ⟨h.1, h.2.1, h.2.2.1, rfl⟩

/-!
## The tree model, `utilities.findIndexInModel`, and `MainModel`

From `src/utilities.py`, lines 27–44, and `src/MainModel.py`.  A
`QStandardItemModel` tree is a forest of rows; an item carries the
display text of column 0, the type text of column 1, and the `id` and
`error` entries of its data dictionary.  A `QModelIndex` is modeled as
the path of row numbers from the root (`model.index(row, 0, parent)`
appends `row`), with the invalid index as `none`.
-/

/-- The data of one row: its data-dictionary `id` and `error`, its
display text, and its type column. -/
structure ModelItem where
  id : String
  text : String
  type : String
  error : String
deriving DecidableEq

/-- A row of the hierarchical model: its item and its child rows. -/
inductive ItemTree where
  | node (item : ModelItem) (children : List ItemTree)

/-- The item of a row. -/
def nodeItem : ItemTree → ModelItem
  | .node item _ => item

/-- The child rows of a row. -/
def nodeChildren : ItemTree → List ItemTree
  | .node _ children => children

/-- Embeds `utilities.findIndexInModel`: test each row's item, then recurse into
its children, then continue with the following rows; return the invalid
index when nothing matches. -/
def findIndexInForest (pred : ModelItem → Bool) (parentPath : List Nat) (row : Nat) :
    List ItemTree → Option (List Nat)
  | [] => none
  | .node item children :: rest =>
    if pred item then some (parentPath ++ [row])
    else
      match findIndexInForest pred (parentPath ++ [row]) 0 children with
      | some childIndex => some childIndex
      | none => findIndexInForest pred parentPath (row + 1) rest

/-- Embeds `findIndexInModel` run from the root with the invalid parent index. -/
def findIndexInModel (pred : ModelItem → Bool) (forest : List ItemTree) : Option (List Nat) :=
  findIndexInForest pred [] 0 forest

/-- Claim-side: the depth-first pre-order enumeration of the model —
each parent before its children, rows in increasing order — paired with
the index paths. -/
def preorderPaths (parentPath : List Nat) (row : Nat) :
    List ItemTree → List (List Nat × ModelItem)
  | [] => []
  | .node item children :: rest =>
    (parentPath ++ [row], item) :: (preorderPaths (parentPath ++ [row]) 0 children ++
      preorderPaths parentPath (row + 1) rest)

/-- Claim-side: all items of the model, in pre-order. -/
def forestItems (forest : List ItemTree) : List ModelItem :=
  (preorderPaths [] 0 forest).map Prod.snd

theorem findIndexInForest_eq (pred : ModelItem → Bool) :
    ∀ (forest : List ItemTree) (parentPath : List Nat) (row : Nat),
      findIndexInForest pred parentPath row forest =
        ((preorderPaths parentPath row forest).find? fun x => pred x.2).map Prod.fst
  | [], parentPath, row => by
    simp [findIndexInForest, preorderPaths]
  | .node item children :: rest, parentPath, row => by
    by_cases hp : pred item
    · simp [findIndexInForest, preorderPaths, hp]
    · have ih1 := findIndexInForest_eq pred children (parentPath ++ [row]) 0
      have ih2 := findIndexInForest_eq pred rest parentPath (row + 1)
      simp only [findIndexInForest, preorderPaths, hp, Bool.false_eq_true, if_false,
        List.find?_cons, List.find?_append]
      rw [ih1, ih2]
      cases hc : (preorderPaths (parentPath ++ [row]) 0 children).find? (fun x => pred x.2) with
      | some x => simp [hc]
      | none => simp [hc]
termination_by forest _ _ => sizeOf forest

/-- C10: `findIndexInModel` returns the index of the first item
satisfying the predicate in depth-first pre-order (each parent tested
before its children, rows visited in increasing order), and returns the
invalid index exactly when no item of the model satisfies the
predicate. -/
theorem findIndexInModel_firstMatch (pred : ModelItem → Bool) (forest : List ItemTree) :
    findIndexInModel pred forest =
      ((preorderPaths [] 0 forest).find? fun x => pred x.2).map Prod.fst ∧
    (findIndexInModel pred forest = none ↔ ∀ item ∈ forestItems forest, pred item = false) := by
  have h : findIndexInModel pred forest =
      ((preorderPaths [] 0 forest).find? fun x => pred x.2).map Prod.fst :=
    findIndexInForest_eq pred forest [] 0
  refine ⟨h, ?_⟩
  rw [h, forestItems]
  constructor
  · intro hn item hitem
    obtain ⟨x, hx, rfl⟩ := List.mem_map.mp hitem
    have hfind : (preorderPaths [] 0 forest).find? (fun x => pred x.2) = none := by
      cases hfind : (preorderPaths [] 0 forest).find? (fun x => pred x.2) with
      | some y => rw [hfind] at hn; simp at hn
      | none => rfl
    have := List.find?_eq_none.mp hfind x hx
    simpa using this
  · intro hall
    have hfind : (preorderPaths [] 0 forest).find? (fun x => pred x.2) = none := by
      apply List.find?_eq_none.mpr
      intro x hx
      have := hall x.2 (List.mem_map_of_mem _ hx)
      simp [this]
    rw [hfind]
    rfl

/-!
## `MainModel.setModuleNames` / `MainModel._addModule`

From `src/MainModel.py`, lines 121–142 and 181–199.  `importResult`
stands for `importlib.import_module` followed by `_inspectObject`, with
three outcomes: the import raises (`failed` — the bare `except` adds one
error-marked childless row); import and inspection both succeed
(`inspected`, with the inspected child rows); or the import succeeds,
`_addItem` appends the success row, and `_inspectObject` then raises
(`inspectRaised`, with the children added before the exception) — the
bare `except` then appends a second, error-marked row with the same id,
without rechecking containment.  `_sort` sorts by name and then, when
`sortByType` is set, stably by the type column (`QStandardItemModel.sort`
uses a stable sort); only the top-level rows are modeled — child
subtrees travel unchanged with their row.
-/

/-- The display texts of the top-level rows. -/
def rootTexts (root : List ItemTree) : List String :=
  root.map fun t => (nodeItem t).text

/-- The error marker set by the `except` handler of `_addModule`. -/
def errMark : String := "Could not import module."

/-- The outcome of `importlib.import_module` plus `_inspectObject` for
one module name. -/
inductive ImportOutcome where
  | failed
  | inspected (children : List ItemTree)
  | inspectRaised (children : List ItemTree)

/-- Embeds `MainModel._parentContainsItem` at the root: some row's data
id equals `id`. -/
def parentContainsItem (root : List ItemTree) (id : String) : Bool :=
  root.any fun t => (nodeItem t).id == id

/-- Embeds `MainModel._addModule`: skip a module id already present
under the root; otherwise append the rows its `try`/`except` produces —
one clean row on full success, one error-marked row when the import
raises, and both (the partially inspected clean row, then the
error-marked row, with no containment recheck) when `_inspectObject`
raises after the row was appended. -/
def addModule (importResult : String → ImportOutcome) (root : List ItemTree)
    (moduleName : String) : List ItemTree :=
  if parentContainsItem root moduleName then root
  else
    match importResult moduleName with
    | .inspected children =>
      root ++ [.node ⟨moduleName, moduleName, "module", ""⟩ children]
    | .inspectRaised children =>
      root ++ [.node ⟨moduleName, moduleName, "module", ""⟩ children,
        .node ⟨moduleName, moduleName, "module", errMark⟩ []]
    | .failed =>
      root ++ [.node ⟨moduleName, moduleName, "module", errMark⟩ []]

/-- Comparator for `sort(0)`: by display text. -/
def byTextLe (a b : ItemTree) : Bool := decide ((nodeItem a).text ≤ (nodeItem b).text)

/-- Comparator for `sort(1)`: by type column. -/
def byTypeLe (a b : ItemTree) : Bool := decide ((nodeItem a).type ≤ (nodeItem b).type)

/-- Embeds `MainModel._sort` at the root: stable sort by name, then
optionally a stable sort by type. -/
def sortRoot (sortByType : Bool) (root : List ItemTree) : List ItemTree :=
  let byName := root.mergeSort byTextLe
  if sortByType then byName.mergeSort byTypeLe else byName

/-- Embeds `MainModel.setModuleNames`: remove top-level rows whose text
is not listed (the downward removal loop is a filter), `_addModule`
every listed name, then `_sort`. -/
def setModuleNames (importResult : String → ImportOutcome) (sortByType : Bool)
    (root : List ItemTree) (moduleNames : List String) : List ItemTree :=
  let kept := root.filter fun t => moduleNames.contains (nodeItem t).text
  let added := moduleNames.foldl (addModule importResult) kept
  sortRoot sortByType added

/-- Claim-side: the error columns of the rows whose text is `n`. -/
def rowsErrors (root : List ItemTree) (n : String) : List String :=
  (root.filter fun t => (nodeItem t).text == n).map fun t => (nodeItem t).error

/-- Claim-side: the error columns of the rows `_addModule` produces for
a name, by import outcome — one clean row, one error row, or (when
inspection raises after the row was appended) both. -/
def expectedErrors (importResult : String → ImportOutcome) (n : String) : List String :=
  match importResult n with
  | .failed => [errMark]
  | .inspected _ => [""]
  | .inspectRaised _ => ["", errMark]

/-- The tree invariant maintained by `setModuleNames`: every row's id
equals its text and its type column is `module`, and each name's rows
are either absent or exactly the rows `_addModule` produces for it. -/
def rootInvariant (importResult : String → ImportOutcome) (root : List ItemTree) : Prop :=
  (∀ t ∈ root, (nodeItem t).id = (nodeItem t).text ∧ (nodeItem t).type = "module") ∧
  (∀ n, rowsErrors root n = [] ∨ (rowsErrors root n).Perm (expectedErrors importResult n))

theorem parentContainsItem_iff (root : List ItemTree)
    (hid : ∀ t ∈ root, (nodeItem t).id = (nodeItem t).text) (n : String) :
    parentContainsItem root n = true ↔ n ∈ rootTexts root := by
  simp only [parentContainsItem, List.any_eq_true, beq_iff_eq, rootTexts, List.mem_map]
  constructor
  · rintro ⟨t, ht, he⟩
    exact ⟨t, ht, by rw [← hid t ht]; exact he⟩
  · rintro ⟨t, ht, he⟩
    exact ⟨t, ht, by rw [hid t ht]; exact he⟩

theorem rowsErrors_ne_nil_iff (root : List ItemTree) (n : String) :
    rowsErrors root n ≠ [] ↔ n ∈ rootTexts root := by
  rw [rowsErrors, rootTexts]
  constructor
  · intro h
    cases hne : root.filter (fun t => (nodeItem t).text == n) with
    | nil => rw [hne] at h; simp at h
    | cons t rest =>
      have ht : t ∈ root.filter fun t0 => (nodeItem t0).text == n := by
        rw [hne]; exact List.mem_cons_self t rest
      have ht2 := List.mem_filter.mp ht
      exact List.mem_map.mpr ⟨t, ht2.1, by simpa using ht2.2⟩
  · intro h hnil
    obtain ⟨t, ht, rfl⟩ := List.mem_map.mp h
    have hmem : t ∈ root.filter fun t0 => (nodeItem t0).text == (nodeItem t).text :=
      List.mem_filter.mpr ⟨ht, by simp⟩
    rw [List.map_eq_nil_iff] at hnil
    rw [hnil] at hmem
    cases hmem

theorem rowsErrors_append (l1 l2 : List ItemTree) (n : String) :
    rowsErrors (l1 ++ l2) n = rowsErrors l1 n ++ rowsErrors l2 n := by
  simp [rowsErrors, List.filter_append]

theorem rowsErrors_all_text (tail : List ItemTree) (n : String)
    (h : ∀ t ∈ tail, (nodeItem t).text = n) :
    rowsErrors tail n = tail.map fun t => (nodeItem t).error := by
  rw [rowsErrors]
  congr 1
  apply List.filter_eq_self.mpr
  intro t ht
  simp [h t ht]

theorem rowsErrors_all_text_ne (tail : List ItemTree) (n m : String)
    (h : ∀ t ∈ tail, (nodeItem t).text = n) (hne : m ≠ n) :
    rowsErrors tail m = [] := by
  rw [rowsErrors]
  have hfil : tail.filter (fun t => (nodeItem t).text == m) = [] := by
    rw [List.filter_eq_nil_iff]
    intro t ht
    simp [h t ht, Ne.symm hne]
  rw [hfil, List.map_nil]

theorem addModule_not_contains (importResult : String → ImportOutcome)
    (root : List ItemTree) (n : String) (hc : ¬ parentContainsItem root n = true) :
    ∃ tail : List ItemTree, addModule importResult root n = root ++ tail ∧
      (∀ t ∈ tail, (nodeItem t).id = n ∧ (nodeItem t).text = n ∧
        (nodeItem t).type = "module") ∧
      tail.map (fun t => (nodeItem t).error) = expectedErrors importResult n := by
  rw [addModule, if_neg hc]
  cases hir : importResult n with
  | inspected children =>
    refine ⟨_, rfl, ?_, by simp [expectedErrors, hir, nodeItem]⟩
    intro t ht
    simp only [List.mem_singleton] at ht
    subst ht
    exact ⟨rfl, rfl, rfl⟩
  | inspectRaised children =>
    refine ⟨_, rfl, ?_, by simp [expectedErrors, hir, nodeItem]⟩
    intro t ht
    rcases List.mem_cons.mp ht with rfl | ht
    · exact ⟨rfl, rfl, rfl⟩
    · simp only [List.mem_singleton] at ht
      subst ht
      exact ⟨rfl, rfl, rfl⟩
  | failed =>
    refine ⟨_, rfl, ?_, by simp [expectedErrors, hir, nodeItem]⟩
    intro t ht
    simp only [List.mem_singleton] at ht
    subst ht
    exact ⟨rfl, rfl, rfl⟩

theorem addModule_step (importResult : String → ImportOutcome) (root : List ItemTree)
    (n : String) (hinv : rootInvariant importResult root) :
    rootInvariant importResult (addModule importResult root n) ∧
    (rowsErrors (addModule importResult root n) n).Perm (expectedErrors importResult n) ∧
    (∀ m, m ≠ n → rowsErrors (addModule importResult root n) m = rowsErrors root m) := by
  obtain ⟨hrows, hdich⟩ := hinv
  have hid : ∀ t ∈ root, (nodeItem t).id = (nodeItem t).text := fun t ht => (hrows t ht).1
  by_cases hc : parentContainsItem root n = true
  · have he : addModule importResult root n = root := by rw [addModule, if_pos hc]
    rw [he]
    refine ⟨⟨hrows, hdich⟩, ?_, fun _ _ => rfl⟩
    have hne : rowsErrors root n ≠ [] :=
      (rowsErrors_ne_nil_iff root n).mpr ((parentContainsItem_iff root hid n).mp hc)
    rcases hdich n with h | h
    · exact absurd h hne
    · exact h
  · obtain ⟨tail, heq, htail, herr⟩ := addModule_not_contains importResult root n hc
    have hn : n ∉ rootTexts root := fun h => hc ((parentContainsItem_iff root hid n).mpr h)
    have hrootnil : rowsErrors root n = [] := by
      by_contra h
      exact hn ((rowsErrors_ne_nil_iff root n).mp h)
    have htailtext : ∀ t ∈ tail, (nodeItem t).text = n := fun t ht => (htail t ht).2.1
    have hrowsn : rowsErrors (root ++ tail) n = expectedErrors importResult n := by
      rw [rowsErrors_append, hrootnil, List.nil_append,
        rowsErrors_all_text tail n htailtext, herr]
    rw [heq]
    refine ⟨⟨?_, ?_⟩, ?_, ?_⟩
    · intro t ht
      rcases List.mem_append.mp ht with h | h
      · exact hrows t h
      · obtain ⟨h1, h2, h3⟩ := htail t h
        exact ⟨by rw [h1, h2], h3⟩
    · intro m
      by_cases hm : m = n
      · subst hm
        exact Or.inr (hrowsn ▸ List.Perm.refl _)
      · rw [rowsErrors_append, rowsErrors_all_text_ne tail n m htailtext hm, List.append_nil]
        exact hdich m
    · exact hrowsn ▸ List.Perm.refl _
    · intro m hm
      rw [rowsErrors_append, rowsErrors_all_text_ne tail n m htailtext hm, List.append_nil]

theorem foldl_addModule_props (importResult : String → ImportOutcome) :
    ∀ (names : List String) (root : List ItemTree),
      rootInvariant importResult root →
      rootInvariant importResult (names.foldl (addModule importResult) root) ∧
      (∀ n ∈ names, (rowsErrors (names.foldl (addModule importResult) root) n).Perm
        (expectedErrors importResult n)) ∧
      (∀ n, n ∉ names → rowsErrors (names.foldl (addModule importResult) root) n =
        rowsErrors root n) := by
  intro names
  induction names with
  | nil => exact fun root h => ⟨h, by simp, fun n _ => rfl⟩
  | cons n rest ih =>
    intro root h
    obtain ⟨hstepinv, hstepn, hstepother⟩ := addModule_step importResult root n h
    obtain ⟨hinv, hmem, hother⟩ := ih (addModule importResult root n) hstepinv
    rw [List.foldl_cons]
    refine ⟨hinv, ?_, ?_⟩
    · intro m hm
      rcases List.mem_cons.mp hm with rfl | hmrest
      · by_cases hmr : m ∈ rest
        · exact hmem m hmr
        · rw [hother m hmr]
          exact hstepn
      · exact hmem m hmrest
    · intro m hm
      have h1 : m ∉ rest := fun hh => hm (by simp [hh])
      have h2 : m ≠ n := fun hh => hm (by simp [hh])
      rw [hother m h1, hstepother m h2]

theorem foldl_addModule_contained (importResult : String → ImportOutcome) :
    ∀ (names : List String) (root : List ItemTree),
      (∀ n ∈ names, parentContainsItem root n = true) →
      names.foldl (addModule importResult) root = root := by
  intro names
  induction names with
  | nil => exact fun root _ => rfl
  | cons n rest ih =>
    intro root h
    have hstep : addModule importResult root n = root := by
      rw [addModule, if_pos (h n (by simp))]
    rw [List.foldl_cons, hstep]
    exact ih root fun x hx => h x (by simp [hx])

theorem byTextLe_trans : ∀ a b c : ItemTree, byTextLe a b → byTextLe b c → byTextLe a c := by
  intro a b c hab hbc
  simp only [byTextLe, decide_eq_true_eq] at *
  exact le_trans hab hbc

theorem byTextLe_total : ∀ a b : ItemTree, byTextLe a b || byTextLe b a := by
  intro a b
  simp only [byTextLe, Bool.or_eq_true, decide_eq_true_eq]
  exact le_total _ _

theorem sortRoot_perm (sortByType : Bool) (l : List ItemTree) :
    (sortRoot sortByType l).Perm l := by
  cases sortByType with
  | false => simpa [sortRoot] using List.mergeSort_perm l byTextLe
  | true =>
    simp only [sortRoot, if_true]
    exact (List.mergeSort_perm _ byTypeLe).trans (List.mergeSort_perm l byTextLe)

theorem sortRoot_idem (sortByType : Bool) (l : List ItemTree)
    (hmod : ∀ t ∈ l, (nodeItem t).type = "module") :
    sortRoot sortByType (sortRoot sortByType l) = sortRoot sortByType l := by
  have hBsorted : (l.mergeSort byTextLe).Pairwise (byTextLe · ·) :=
    List.sorted_mergeSort byTextLe_trans byTextLe_total l
  cases sortByType with
  | false =>
    simp only [sortRoot, if_false, Bool.false_eq_true]
    exact List.mergeSort_of_sorted hBsorted
  | true =>
    simp only [sortRoot, if_true]
    have hmodB : ∀ t ∈ l.mergeSort byTextLe, (nodeItem t).type = "module" :=
      fun t ht => hmod t (List.mem_mergeSort.mp ht)
    have hT : (l.mergeSort byTextLe).mergeSort byTypeLe = l.mergeSort byTextLe := by
      apply List.mergeSort_of_sorted
      apply List.pairwise_of_forall_mem_list
      intro a ha b hb
      simp [byTypeLe, hmodB a ha, hmodB b hb]
    rw [hT, List.mergeSort_of_sorted hBsorted, hT]

theorem count_rootTexts_eq_length (root : List ItemTree) (n : String) :
    (rootTexts root).count n = (rowsErrors root n).length := by
  rw [rowsErrors, List.length_map, rootTexts]
  show List.countP (· == n) (root.map fun t => (nodeItem t).text) = _
  rw [List.countP_map, List.countP_eq_length_filter]
  rfl

/-- Counterexample to C9 as stated: when a module imports but its
inspection raises after the success row was appended, the bare `except`
appends a second row with the same id and no containment recheck — the
root then holds two top-level items for one name. -/
theorem setModuleNames_duplicate_rows :
    (rootTexts (setModuleNames (fun _ => ImportOutcome.inspectRaised []) true []
      ["a"])).count "a" = 2 := by
  rw [show setModuleNames (fun _ => ImportOutcome.inspectRaised []) true [] ["a"] =
      sortRoot true (["a"].foldl (addModule fun _ => ImportOutcome.inspectRaised [])
        (([] : List ItemTree).filter fun t => ["a"].contains (nodeItem t).text)) from rfl]
  rw [rootTexts, List.Perm.count_eq ((sortRoot_perm true _).map fun t => (nodeItem t).text)]
  decide

/-- C9 (amended): `setModuleNames` is idempotent and normalizing up to
`_addModule`'s partial-failure path.  Starting from any well-formed
tree, the root holds, per listed name, exactly the rows `_addModule`
produces for it — one row (error-marked iff the import fails) except
when the import succeeds and `_inspectObject` then raises, which leaves
two rows with that name, a clean one and an error-marked one — and no
row whose text is outside the list; calling `setModuleNames` again with
the same list leaves the tree unchanged, because `_addModule` skips
module ids already present under the root. -/
theorem setModuleNames_normalizes (importResult : String → ImportOutcome)
    (sortByType : Bool) (root : List ItemTree) (names : List String)
    (hinv : rootInvariant importResult root) :
    (∀ n, (rootTexts (setModuleNames importResult sortByType root names)).count n =
      if n ∈ names then (expectedErrors importResult n).length else 0) ∧
    (∀ n ∈ names, (rowsErrors (setModuleNames importResult sortByType root names) n).Perm
      (expectedErrors importResult n)) ∧
    (∀ n, n ∉ names → rowsErrors (setModuleNames importResult sortByType root names) n = []) ∧
    setModuleNames importResult sortByType
        (setModuleNames importResult sortByType root names) names =
      setModuleNames importResult sortByType root names := by
  obtain ⟨hrows, hdich⟩ := hinv
  have hkrowsErr : ∀ n, rowsErrors (root.filter fun t => names.contains (nodeItem t).text) n =
      if n ∈ names then rowsErrors root n else [] := by
    intro n
    by_cases hn : n ∈ names
    · rw [if_pos hn, rowsErrors, rowsErrors, List.filter_filter]
      congr 1
      apply List.filter_congr
      intro t ht
      by_cases htxt : (nodeItem t).text = n
      · simp [htxt, hn]
      · simp [htxt]
    · rw [if_neg hn, rowsErrors, List.filter_filter]
      have hfil : root.filter (fun t => ((nodeItem t).text == n) &&
          names.contains (nodeItem t).text) = [] := by
        rw [List.filter_eq_nil_iff]
        intro t ht
        by_cases htxt : (nodeItem t).text = n
        · simp [htxt, hn]
        · simp [htxt]
      rw [hfil, List.map_nil]
  have hkinv : rootInvariant importResult
      (root.filter fun t => names.contains (nodeItem t).text) := by
    constructor
    · exact fun t ht => hrows t (List.mem_of_mem_filter ht)
    · intro n
      rw [hkrowsErr n]
      by_cases hn : n ∈ names
      · rw [if_pos hn]
        exact hdich n
      · rw [if_neg hn]
        exact Or.inl rfl
  obtain ⟨hainv, hamem, haother⟩ := foldl_addModule_props importResult names
    (root.filter fun t => names.contains (nodeItem t).text) hkinv
  have hanil : ∀ n, n ∉ names → rowsErrors (names.foldl (addModule importResult)
      (root.filter fun t => names.contains (nodeItem t).text)) n = [] := by
    intro n hn
    rw [haother n hn, hkrowsErr n, if_neg hn]
  have hS : setModuleNames importResult sortByType root names =
      sortRoot sortByType (names.foldl (addModule importResult)
        (root.filter fun t => names.contains (nodeItem t).text)) := by
    rw [setModuleNames]
  have hperm : (setModuleNames importResult sortByType root names).Perm
      (names.foldl (addModule importResult)
        (root.filter fun t => names.contains (nodeItem t).text)) := by
    rw [hS]
    exact sortRoot_perm _ _
  have hrowsPerm : ∀ n, (rowsErrors (setModuleNames importResult sortByType root names) n).Perm
      (rowsErrors (names.foldl (addModule importResult)
        (root.filter fun t => names.contains (nodeItem t).text)) n) := by
    intro n
    rw [rowsErrors, rowsErrors]
    exact (hperm.filter _).map _
  have hSn : ∀ n ∈ names, (rowsErrors (setModuleNames importResult sortByType root names) n).Perm
      (expectedErrors importResult n) :=
    fun n hn => (hrowsPerm n).trans (hamem n hn)
  have hSnil : ∀ n, n ∉ names →
      rowsErrors (setModuleNames importResult sortByType root names) n = [] := by
    intro n hn
    have h := hrowsPerm n
    rw [hanil n hn] at h
    exact h.eq_nil
  have hSrows : ∀ t ∈ setModuleNames importResult sortByType root names,
      (nodeItem t).id = (nodeItem t).text ∧ (nodeItem t).type = "module" :=
    fun t ht => hainv.1 t (hperm.mem_iff.mp ht)
  have hexpne : ∀ n, expectedErrors importResult n ≠ [] := by
    intro n
    rw [expectedErrors]
    cases importResult n <;> simp
  refine ⟨?_, hSn, hSnil, ?_⟩
  · intro n
    rw [count_rootTexts_eq_length]
    by_cases hn : n ∈ names
    · rw [if_pos hn, (hSn n hn).length_eq]
    · rw [if_neg hn, hSnil n hn, List.length_nil]
  · have hStext : ∀ t ∈ setModuleNames importResult sortByType root names,
        (nodeItem t).text ∈ names := by
      intro t ht
      by_contra hn
      have hnil := hSnil (nodeItem t).text hn
      have hmem : (nodeItem t).error ∈
          rowsErrors (setModuleNames importResult sortByType root names) (nodeItem t).text :=
        List.mem_map_of_mem _ (List.mem_filter.mpr ⟨ht, by simp⟩)
      rw [hnil] at hmem
      cases hmem
    have hfilter : (setModuleNames importResult sortByType root names).filter
        (fun t => names.contains (nodeItem t).text) =
        setModuleNames importResult sortByType root names := by
      apply List.filter_eq_self.mpr
      intro t ht
      have := hStext t ht
      simpa using this
    have hcontained : ∀ n ∈ names,
        parentContainsItem (setModuleNames importResult sortByType root names) n = true := by
      intro n hn
      apply (parentContainsItem_iff _ (fun t ht => (hSrows t ht).1) n).mpr
      apply (rowsErrors_ne_nil_iff _ n).mp
      intro hnil
      have h := hSn n hn
      rw [hnil] at h
      exact hexpne n h.symm.eq_nil
    have hfold := foldl_addModule_contained importResult names
      (setModuleNames importResult sortByType root names) hcontained
    have hsort : sortRoot sortByType (setModuleNames importResult sortByType root names) =
        setModuleNames importResult sortByType root names := by
      rw [hS]
      exact sortRoot_idem sortByType _ fun t ht => (hainv.1 t ht).2
    calc setModuleNames importResult sortByType
          (setModuleNames importResult sortByType root names) names
        = sortRoot sortByType (names.foldl (addModule importResult)
            ((setModuleNames importResult sortByType root names).filter
              (fun t => names.contains (nodeItem t).text))) := by
          rw [setModuleNames]
      _ = sortRoot sortByType (setModuleNames importResult sortByType root names) := by
          rw [hfilter, hfold]
      _ = setModuleNames importResult sortByType root names := hsort

/-- Witness for C9 at an empty tree with names `["b", "a"]`, where `a`
imports and inspects cleanly and `b` fails to import. -/
theorem setModuleNames_normalizes_witness :
    setModuleNames
        (fun n => if n == "a" then ImportOutcome.inspected [] else ImportOutcome.failed) true
        (setModuleNames
          (fun n => if n == "a" then ImportOutcome.inspected [] else ImportOutcome.failed)
          true [] ["b", "a"]) ["b", "a"] =
      setModuleNames
        (fun n => if n == "a" then ImportOutcome.inspected [] else ImportOutcome.failed)
        true [] ["b", "a"] :=
  (setModuleNames_normalizes
    (fun n => if n == "a" then ImportOutcome.inspected [] else ImportOutcome.failed)
    true [] ["b", "a"] ⟨by simp, fun n => Or.inl rfl⟩).2.2.2

/-!
## `MainWindow._linkClicked` and `utilities.openFile`

From `src/MainWindow.py`, lines 367–381, and `src/utilities.py`, lines
9–16.  External effects (launching a process, `os.startfile`, opening a
browser tab) are explicit values; the UI state carries the search texts
and the tree view's current index.  `MainModel.findItemById` searches the
filtered tree with `findIndexInModel` for the item whose data id equals
the given id.
-/

/-- A clicked `QUrl`: its scheme, its path, and its full string form. -/
structure QUrlValue where
  scheme : String
  path : String
  full : String

/-- The UI state touched by `_linkClicked`. -/
structure BrowserUiState where
  searchEditText : String
  modelSearchText : String
  currentIndex : Option (List Nat)
deriving DecidableEq

/-- An external effect requested by a link click. -/
inductive ExternalEffect where
  | subprocessCall (args : List String)
  | osStartfile (filePath : String)
  | openNewBrowserTab (url : String)
deriving DecidableEq

/-- Embeds `utilities.openFile`: open a file with the system's default
application — `open` on Darwin, `os.startfile` on Windows, `xdg-open`
elsewhere. -/
def openFile (platformSystem : String) (filePath : String) : ExternalEffect :=
  if platformSystem == "Darwin" then .subprocessCall ["open", filePath]
  else if platformSystem == "Windows" then .osStartfile filePath
  else .subprocessCall ["xdg-open", filePath]

/-- Embeds `MainModel.findItemById`: the index of the item of the filtered tree
whose data id is `id`. -/
def findItemById (tree : List ItemTree) (id : String) : Option (List Nat) :=
  findIndexInForest (fun item => item.id == id) [] 0 tree

/-- Embeds `MainWindow._linkClicked`: dispatch on the URL scheme, returning the
new UI state and the requested external effects. -/
def linkClicked (platformSystem : String) (tree : List ItemTree) (st : BrowserUiState)
    (url : QUrlValue) : BrowserUiState × List ExternalEffect :=
  if url.scheme == "file" then
    (st, [openFile platformSystem url.path])
  else if url.scheme == "http" || url.scheme == "https" then
    (st, [.openNewBrowserTab url.full])
  else if url.scheme == "item" then
    let st1 := { st with searchEditText := "", modelSearchText := "" }
    match findItemById tree url.path with
    | some index => ({ st1 with currentIndex := some index }, [])
    | none => (st1, [])
  else (st, [])

theorem findItemById_none_iff (tree : List ItemTree) (id : String) :
    findItemById tree id = none ↔ ∀ item ∈ forestItems tree, ¬ item.id = id := by
  have h : findItemById tree id =
      ((preorderPaths [] 0 tree).find? fun x => x.2.id == id).map Prod.fst :=
    findIndexInForest_eq (fun item => item.id == id) tree [] 0
  rw [h, forestItems]
  constructor
  · intro hn item hitem hid
    obtain ⟨x, hx, rfl⟩ := List.mem_map.mp hitem
    have hfind : (preorderPaths [] 0 tree).find? (fun x => x.2.id == id) = none := by
      cases hfind : (preorderPaths [] 0 tree).find? (fun x => x.2.id == id) with
      | some y => rw [hfind] at hn; simp at hn
      | none => rfl
    have := List.find?_eq_none.mp hfind x hx
    simp [hid] at this
  · intro hall
    have hfind : (preorderPaths [] 0 tree).find? (fun x => x.2.id == id) = none := by
      apply List.find?_eq_none.mpr
      intro x hx
      have := hall x.2 (List.mem_map_of_mem _ hx)
      simpa using this
    rw [hfind]
    rfl

/-- C7: link clicks dispatch exactly by URL scheme: `file` opens the path
with the system's default application; `http`/`https` opens the full URL
in a new browser tab; `item` clears the search text in both the search
edit and the model, and changes the current selection — to the found
index — exactly when the filtered tree holds an item whose id is the
URL's path; every other scheme leaves all state unchanged and requests
nothing. -/
theorem linkClicked_dispatch (platformSystem : String) (tree : List ItemTree)
    (st : BrowserUiState) (url : QUrlValue) :
    (url.scheme = "file" →
      linkClicked platformSystem tree st url = (st, [openFile platformSystem url.path])) ∧
    (url.scheme = "http" ∨ url.scheme = "https" →
      linkClicked platformSystem tree st url =
        (st, [ExternalEffect.openNewBrowserTab url.full])) ∧
    (url.scheme = "item" →
      ((∀ item ∈ forestItems tree, ¬ item.id = url.path) →
        linkClicked platformSystem tree st url =
          ({ st with searchEditText := "", modelSearchText := "" }, [])) ∧
      ((∃ item ∈ forestItems tree, item.id = url.path) →
        ∃ index, findItemById tree url.path = some index ∧
          linkClicked platformSystem tree st url =
            ({ st with searchEditText := ""
                       modelSearchText := ""
                       currentIndex := some index }, []))) ∧
    (url.scheme ≠ "file" → ¬(url.scheme = "http" ∨ url.scheme = "https") →
      url.scheme ≠ "item" →
      linkClicked platformSystem tree st url = (st, [])) := by
  refine ⟨?_, ?_, ?_, ?_⟩
  · intro h
    rw [linkClicked, if_pos (by simp [h])]
  · intro h
    have hnf : ¬ (url.scheme == "file") = true := by
      rcases h with h | h <;> simp [h]
    rw [linkClicked, if_neg hnf, if_pos (by rcases h with h | h <;> simp [h])]
  · intro h
    constructor
    · intro hnone
      have hfind : findItemById tree url.path = none :=
        (findItemById_none_iff tree url.path).mpr hnone
      rw [linkClicked, if_neg (by simp [h]), if_neg (by simp [h]), if_pos (by simp [h])]
      rw [hfind]
    · intro hsome
      have hfind : findItemById tree url.path ≠ none := by
        intro hnone
        obtain ⟨item, hmem, hid⟩ := hsome
        exact (findItemById_none_iff tree url.path).mp hnone item hmem hid
      cases hf : findItemById tree url.path with
      | none => exact absurd hf hfind
      | some index =>
        refine ⟨index, rfl, ?_⟩
        rw [linkClicked, if_neg (by simp [h]), if_neg (by simp [h]), if_pos (by simp [h])]
        rw [hf]
  · intro h1 h2 h3
    rw [linkClicked, if_neg (by simp [h1]), if_neg (by simpa using h2),
      if_neg (by simp [h3])]

/-- Witness for C7: clicking `item:io/TextIOBase` in a one-row tree that
holds that id clears the search and selects row 0. -/
theorem linkClicked_dispatch_witness :
    ∃ index,
      findItemById [ItemTree.node ⟨"io/TextIOBase", "TextIOBase", "class", ""⟩ []]
          "io/TextIOBase" = some index ∧
      linkClicked "Linux" [ItemTree.node ⟨"io/TextIOBase", "TextIOBase", "class", ""⟩ []]
          ⟨"", "", none⟩ ⟨"item", "io/TextIOBase", "item:io/TextIOBase"⟩ =
        ({ searchEditText := ""
           modelSearchText := ""
           currentIndex := some index }, []) :=
  ((linkClicked_dispatch "Linux" [ItemTree.node ⟨"io/TextIOBase", "TextIOBase", "class", ""⟩ []]
      ⟨"", "", none⟩ ⟨"item", "io/TextIOBase", "item:io/TextIOBase"⟩).2.2.1 rfl).2
    ⟨⟨"io/TextIOBase", "TextIOBase", "class", ""⟩, by simp [forestItems, preorderPaths], rfl⟩

/-- Witness for C6: from the freshly constructed, agreeing window state,
toggling match-case on and sort-by-type off keeps config and model in
agreement. -/
theorem checkBox_toggles_consistent_witness :
    filterStatesAgree
      ([CheckBoxEvent.matchCaseChanged 2, CheckBoxEvent.sortByTypeChanged 0].foldl
        checkBoxStateChanged
        { config := { matchCase := false
                      includePrivateMembers := false
                      includeInheritedMembers := false
                      sortByType := true
                      moduleNames := ["builtins"] }
          model := { searchText := ""
                     matchCase := false
                     includePrivateMembers := false
                     includeInheritedMembers := false
                     sortByType := true
                     filterCaseSensitivity := 0
                     privateFilterRegEx := excludePrivateRegEx
                     inheritedFilterRegEx := excludeInheritedRegEx } }) :=
  checkBox_toggles_consistent.2.2.2.2
    { config := { matchCase := false
                  includePrivateMembers := false
                  includeInheritedMembers := false
                  sortByType := true
                  moduleNames := ["builtins"] }
      model := { searchText := ""
                 matchCase := false
                 includePrivateMembers := false
                 includeInheritedMembers := false
                 sortByType := true
                 filterCaseSensitivity := 0
                 privateFilterRegEx := excludePrivateRegEx
                 inheritedFilterRegEx := excludeInheritedRegEx } }
    [CheckBoxEvent.matchCaseChanged 2, CheckBoxEvent.sortByTypeChanged 0]
    ⟨rfl, rfl, rfl, rfl⟩
